import Mathlib

/-!
Shallow embedding of the `kway` Go package (`src/merge.go`) and proofs about it.

A Go `iter.Seq[V]` that is finite is modelled as a `List V`; a batched sequence
`iter.Seq[[]V]` is modelled as a `List (List V)`.  `iter.Pull` over such a
sequence is modelled by taking successive elements of the list.  The output
buffer `buffer` of capacity `B` together with the cursor `offset` is modelled
as the list `acc` of the values written so far (`acc = buffer[:offset]`),
since the code only ever reads the written prefix of the buffer.

Each loop of the source is embedded as a structurally recursive function on
an explicit fuel argument, with a wrapper passing a fuel that is an upper
bound on the number of iterations the loop can make (every iteration either
consumes an element of a batch or pulls a batch, so the relevant lengths
bound the iteration count); the fuel-exhausted base case returns the same
state as the loop-exit branch and is unreachable from the wrappers.

The full-run semantics (a consumer whose `yield` always returns `true`)
is given by `merge2`, `mergeK`, `MergeFunc`, `MergeSliceFunc`.  A separate
bounds-checked variant (`merge2Checked`, `mergeKChecked`) makes every slice
index of the Go code an explicit `Option`-valued access, and a budgeted
variant (`merge2Stop`) models a consumer that stops after `m` values.
-/

namespace Kway

/-- The constant `bufferSize = 128` from `src/merge.go`. -/
def bufferSize : Nat := 128

/-- The comparison function `cmp.Compare[int]` used by `Merge`:
negative when `a < b`, positive when `a > b`, zero when equal. -/
def cmpInt (a b : Int) : Int := if a < b then -1 else if a > b then 1 else 0

/-- Modelled from the spec: the Batched Source Adapter `bufferedFunc` is called
by `MergeFunc` but its definition is not part of the available source.
Per §4.1 it turns one ordered sequence into a sequence of batches of capacity
`n`, in source order, whose concatenation reproduces the source; batching is
greedy into fixed-size chunks (§2: "batches individual values into fixed-size
chunks"), so every batch has length `n` except possibly the last.  Fuelled
worker; each step removes `n ≥ 1` elements. -/
def bufferedFuncF (n : Nat) : Nat → List V → List (List V)
  | 0, _ => []
  | f + 1, xs =>
    if xs.length = 0 then []
    else if xs.length ≤ n ∨ n = 0 then [xs]
    else xs.take n :: bufferedFuncF n f (xs.drop n)

/-- Modelled from the spec: the Batched Source Adapter, see `bufferedFuncF`.
The adapter is only ever invoked with the positive capacity `bufferSize`. -/
def bufferedFunc (n : Nat) (xs : List V) : List (List V) :=
  bufferedFuncF n xs.length xs

/-- `debuffer` (src/merge.go:59-70) under a consumer that never stops:
it yields every value of every batch in order, so it flattens. -/
def debuffer (bs : List (List V)) : List V := bs.flatten

/-- One call of the `next` function produced by `iter.Pull` on a finite
batched sequence: the next batch, the `ok` flag, and the rest of the
sequence.  On an exhausted sequence it returns the zero value and `false`. -/
def pull (bs : List (List V)) : List V × Bool × List (List V) :=
  match bs with
  | [] => ([], false, [])
  | b :: rest => (b, true, rest)

/-- Result of the inner two-pointer loop of `merge2` (src/merge.go:90-118):
final cursor positions into the two current batches, the final contents of
the written buffer prefix, and the batches yielded during the loop. -/
structure InnerRes (V : Type) where
  i0 : Nat
  i1 : Nat
  acc : List V
  outs : List (List V)
deriving Repr, DecidableEq

/-- The inner two-pointer loop of `merge2` (src/merge.go:90-118), run with a
consumer that never stops.  `vs0`, `vs1` are the current batches `values0`,
`values1`; `i0`, `i1` the cursors; `acc` the written buffer prefix
(`buffer[:offset]`).  Before each comparison, if fewer than two buffer slots
remain (`offset + 1 >= len(buffer)`), the written prefix is yielded and the
offset reset; then on `cmp < 0` the left head is appended and the left cursor
advanced, on `cmp > 0` symmetrically, and on equality both heads are appended
(left first) and both cursors advanced.  Each iteration advances a cursor,
so `vs0.length + vs1.length` bounds the iteration count. -/
def m2InnerF (cmp : V → V → Int) (B : Nat) (vs0 vs1 : List V) :
    Nat → Nat → Nat → List V → InnerRes V
  | 0, i0, i1, acc => { i0 := i0, i1 := i1, acc := acc, outs := [] }
  | f + 1, i0, i1, acc =>
    if h : i0 < vs0.length ∧ i1 < vs1.length then
      let v0 := vs0.get ⟨i0, h.1⟩
      let v1 := vs1.get ⟨i1, h.2⟩
      let p : List V × List (List V) :=
        if acc.length + 1 ≥ B then ([], [acc]) else (acc, [])
      let d := cmp v0 v1
      let r :=
        if d < 0 then m2InnerF cmp B vs0 vs1 f (i0 + 1) i1 (p.1 ++ [v0])
        else if d > 0 then m2InnerF cmp B vs0 vs1 f i0 (i1 + 1) (p.1 ++ [v1])
        else m2InnerF cmp B vs0 vs1 f (i0 + 1) (i1 + 1) (p.1 ++ [v0, v1])
      { r with outs := p.2 ++ r.outs }
    else
      { i0 := i0, i1 := i1, acc := acc, outs := [] }

/-- The inner two-pointer loop of `merge2` (src/merge.go:90-118), see
`m2InnerF`. -/
def m2Inner (cmp : V → V → Int) (B : Nat) (vs0 vs1 : List V)
    (i0 i1 : Nat) (acc : List V) : InnerRes V :=
  m2InnerF cmp B vs0 vs1 (vs0.length + vs1.length) i0 i1 acc

/-- State at the end of the outer loop of `merge2` (src/merge.go:86-129):
the two current batches with their `ok` flags and unpulled remainders, the
written buffer prefix, and all batches yielded during the loop. -/
structure OuterRes (V : Type) where
  values0 : List V
  ok0 : Bool
  rest0 : List (List V)
  values1 : List V
  ok1 : Bool
  rest1 : List (List V)
  acc : List V
  outs : List (List V)
deriving Repr, DecidableEq

/-- The outer loop of `merge2` (src/merge.go:86-129), run with a consumer
that never stops.  Each iteration restarts the inner loop with both cursors
reset to `0` (the declarations `i0 := 0`, `i1 := 0` are inside the loop in
the source), then refreshes whichever batch was consumed to its end by
pulling the next batch from that source.  When a refresh finds a source
exhausted the loop condition `ok0 && ok1` fails, so the recursion returns
the resulting state directly.  The branch in which neither cursor reached
the end of its batch is unreachable (the inner loop only exits when a
cursor reaches its batch end, see `m2InnerF_range`); there the state is
returned unchanged.  Each iteration pulls at least one batch, so the number
of unpulled batches bounds the iteration count. -/
def m2OuterF (cmp : V → V → Int) (B : Nat) :
    Nat → List V → Bool → List (List V) → List V → Bool → List (List V) →
    List V → OuterRes V
  | 0, v0s, ok0, r0, v1s, ok1, r1, acc =>
    { values0 := v0s, ok0 := ok0, rest0 := r0,
      values1 := v1s, ok1 := ok1, rest1 := r1, acc := acc, outs := [] }
  | f + 1, v0s, ok0, r0, v1s, ok1, r1, acc =>
    if ok0 && ok1 then
      let r := m2Inner cmp B v0s v1s 0 0 acc
      if r.i0 = v0s.length then
        if r.i1 = v1s.length then
          match r0, r1 with
          | [], [] =>
              { values0 := [], ok0 := false, rest0 := [],
                values1 := [], ok1 := false, rest1 := [],
                acc := r.acc, outs := r.outs }
          | [], b1 :: t1 =>
              { values0 := [], ok0 := false, rest0 := [],
                values1 := b1, ok1 := true, rest1 := t1,
                acc := r.acc, outs := r.outs }
          | b0 :: t0, [] =>
              { values0 := b0, ok0 := true, rest0 := t0,
                values1 := [], ok1 := false, rest1 := [],
                acc := r.acc, outs := r.outs }
          | b0 :: t0, b1 :: t1 =>
              let res := m2OuterF cmp B f b0 true t0 b1 true t1 r.acc
              { res with outs := r.outs ++ res.outs }
        else
          match r0 with
          | [] =>
              { values0 := [], ok0 := false, rest0 := [],
                values1 := v1s, ok1 := ok1, rest1 := r1,
                acc := r.acc, outs := r.outs }
          | b0 :: t0 =>
              let res := m2OuterF cmp B f b0 true t0 v1s ok1 r1 r.acc
              { res with outs := r.outs ++ res.outs }
      else
        if r.i1 = v1s.length then
          match r1 with
          | [] =>
              { values0 := v0s, ok0 := ok0, rest0 := r0,
                values1 := [], ok1 := false, rest1 := [],
                acc := r.acc, outs := r.outs }
          | b1 :: t1 =>
              let res := m2OuterF cmp B f v0s ok0 r0 b1 true t1 r.acc
              { res with outs := r.outs ++ res.outs }
        else
          { values0 := v0s, ok0 := ok0, rest0 := r0,
            values1 := v1s, ok1 := ok1, rest1 := r1,
            acc := r.acc, outs := r.outs }
    else
      { values0 := v0s, ok0 := ok0, rest0 := r0,
        values1 := v1s, ok1 := ok1, rest1 := r1, acc := acc, outs := [] }

/-- The outer loop of `merge2` (src/merge.go:86-129), see `m2OuterF`. -/
def m2Outer (cmp : V → V → Int) (B : Nat)
    (v0s : List V) (ok0 : Bool) (r0 : List (List V))
    (v1s : List V) (ok1 : Bool) (r1 : List (List V))
    (acc : List V) : OuterRes V :=
  m2OuterF cmp B (r0.length + r1.length + 1) v0s ok0 r0 v1s ok1 r1 acc

/-- `flush` (src/merge.go:142-146) under a consumer that never stops: if `ok`
holds it yields the current batch and then every remaining batch in order. -/
def flushList (v : List V) (ok : Bool) (r : List (List V)) : List (List V) :=
  if ok then v :: r else []

/-- `merge2` (src/merge.go:73-140) under a consumer that never stops: the
sequence of batches yielded.  Both sources are pulled once, the outer loop
runs, the non-empty written buffer prefix is yielded, and then each source
is flushed in turn. -/
def merge2 (cmp : V → V → Int) (B : Nat) (s0 s1 : List (List V)) :
    List (List V) :=
  let p0 := pull s0
  let p1 := pull s1
  let res := m2Outer cmp B p0.1 p0.2.1 p0.2.2 p1.1 p1.2.1 p1.2.2 []
  res.outs ++ (if res.acc.length > 0 then [res.acc] else [])
    ++ flushList res.values0 res.ok0 res.rest0
    ++ flushList res.values1 res.ok1 res.rest1

/-- The value-accumulation loop of the k-way `merge` (src/merge.go:157-174)
over the stream of values produced by `tree.next`, run with a consumer that
never stops: each value is written to the buffer; when the buffer fills it
is yielded and the offset reset; a final non-empty written prefix is yielded
at the end. -/
def mergeKLoop (B : Nat) : List V → List V → List (List V)
  | [], acc => if acc.length > 0 then [acc] else []
  | v :: vs, acc =>
    let acc2 := acc ++ [v]
    if acc2.length = B then acc2 :: mergeKLoop B vs []
    else mergeKLoop B vs acc2

/-- The k-way `merge` (src/merge.go:149-176) as a function of the stream of
values extracted from the tournament tree. -/
def mergeK (B : Nat) (vs : List V) : List (List V) := mergeKLoop B vs []

/-- Modelled from the spec: one extraction step of the tournament tree
(`makeTree`/`tree.next` are referenced by src/merge.go:151-158 but their
definitions are not part of the available source).  Per §4.4 it reports the
value and source index of the minimum head among the non-exhausted sources,
ties broken by lowest source index. -/
def treePick (cmp : V → V → Int) : List (List V) → Option (Nat × V)
  | [] => none
  | [] :: rest => (treePick cmp rest).map (fun p => (p.1 + 1, p.2))
  | (v :: _) :: rest =>
    match treePick cmp rest with
    | none => some (0, v)
    | some (j, w) => if cmp w v < 0 then some (j + 1, w) else some (0, v)

/-- Advance the head cursor of source `i`. -/
def dropHead : List (List V) → Nat → List (List V)
  | [], _ => []
  | s :: rest, 0 => s.tail :: rest
  | s :: rest, i + 1 => s :: dropHead rest i

/-- Modelled from the spec: the stream of values extracted by repeatedly
calling `tree.next` (§4.4): take the minimum head (ties to the lowest source
index), advance that source, and repeat until every source is exhausted.
Each extraction removes one value, so the total number of values bounds the
number of steps and serves as fuel. -/
def treeStreamAux (cmp : V → V → Int) : Nat → List (List V) → List V
  | 0, _ => []
  | fuel + 1, srcs =>
    match treePick cmp srcs with
    | none => []
    | some (i, v) => v :: treeStreamAux cmp fuel (dropHead srcs i)

/-- Modelled from the spec: the full value stream of the tournament tree,
with fuel equal to the total number of values across all sources. -/
def treeStream (cmp : V → V → Int) (srcs : List (List V)) : List V :=
  treeStreamAux cmp (srcs.map List.length).sum srcs

/-- `MergeFunc` (src/merge.go:22-39) with the batch capacity as an explicit
parameter (the source fixes it to the constant `bufferSize`): zero sequences
give the empty sequence, one sequence is returned itself, two sequences go
through the batched pairwise engine and the debuffer, and three or more go
through the k-way engine over the tournament-tree value stream. -/
def mergeFuncB (cmp : V → V → Int) (B : Nat) (seqs : List (List V)) :
    List V :=
  match seqs with
  | [] => []
  | [s] => s
  | [s0, s1] => debuffer (merge2 cmp B (bufferedFunc B s0) (bufferedFunc B s1))
  | s0 :: s1 :: s2 :: rest => debuffer (mergeK B (treeStream cmp (s0 :: s1 :: s2 :: rest)))

/-- `MergeFunc` (src/merge.go:22-39) at the batch capacity `bufferSize`
fixed by the source. -/
def MergeFunc (cmp : V → V → Int) (seqs : List (List V)) : List V :=
  mergeFuncB cmp bufferSize seqs

/-- `MergeSliceFunc` (src/merge.go:45-56): the pre-batched entry point;
zero sequences give the empty sequence, one sequence is returned itself,
two go through `merge2` directly, three or more through the k-way engine. -/
def MergeSliceFunc (cmp : V → V → Int) (seqs : List (List (List V))) :
    List (List V) :=
  match seqs with
  | [] => []
  | [s] => s
  | [s0, s1] => merge2 cmp bufferSize s0 s1
  | s0 :: s1 :: s2 :: rest =>
      mergeK bufferSize (treeStream cmp ((s0 :: s1 :: s2 :: rest).map List.flatten))

/-! ### Bounds-checked variants

The same control flow as `m2Inner`/`m2Outer`/`merge2` and `mergeKLoop`,
but with every slice access of the Go code made an explicit checked access:
the reads `values0[i0]`, `values1[i1]` go through `List.get?`, and each
buffer write `buffer[offset] = v` checks `offset < B` (with `offset`
the length of the written prefix), returning `none` where the Go code
would fault on an out-of-range index. -/

/-- Bounds-checked inner loop of `merge2`: `none` iff some slice access of
the loop body is out of range. -/
def m2InnerCF (cmp : V → V → Int) (B : Nat) (vs0 vs1 : List V) :
    Nat → Nat → Nat → List V → Option (InnerRes V)
  | 0, i0, i1, acc => some { i0 := i0, i1 := i1, acc := acc, outs := [] }
  | f + 1, i0, i1, acc =>
    if i0 < vs0.length ∧ i1 < vs1.length then
      match vs0[i0]?, vs1[i1]? with
      | some v0, some v1 =>
        let p : List V × List (List V) :=
          if acc.length + 1 ≥ B then ([], [acc]) else (acc, [])
        let d := cmp v0 v1
        let r :=
          if d < 0 then
            if p.1.length < B then m2InnerCF cmp B vs0 vs1 f (i0 + 1) i1 (p.1 ++ [v0])
            else none
          else if d > 0 then
            if p.1.length < B then m2InnerCF cmp B vs0 vs1 f i0 (i1 + 1) (p.1 ++ [v1])
            else none
          else
            if p.1.length < B ∧ p.1.length + 1 < B then
              m2InnerCF cmp B vs0 vs1 f (i0 + 1) (i1 + 1) (p.1 ++ [v0, v1])
            else none
        r.map (fun r2 => { r2 with outs := p.2 ++ r2.outs })
      | _, _ => none
    else some { i0 := i0, i1 := i1, acc := acc, outs := [] }

/-- Bounds-checked inner loop of `merge2`, see `m2InnerCF`. -/
def m2InnerC (cmp : V → V → Int) (B : Nat) (vs0 vs1 : List V)
    (i0 i1 : Nat) (acc : List V) : Option (InnerRes V) :=
  m2InnerCF cmp B vs0 vs1 (vs0.length + vs1.length) i0 i1 acc

/-- Bounds-checked outer loop of `merge2`. -/
def m2OuterCF (cmp : V → V → Int) (B : Nat) :
    Nat → List V → Bool → List (List V) → List V → Bool → List (List V) →
    List V → Option (OuterRes V)
  | 0, v0s, ok0, r0, v1s, ok1, r1, acc =>
    some { values0 := v0s, ok0 := ok0, rest0 := r0,
           values1 := v1s, ok1 := ok1, rest1 := r1, acc := acc, outs := [] }
  | f + 1, v0s, ok0, r0, v1s, ok1, r1, acc =>
    if ok0 && ok1 then
      match m2InnerC cmp B v0s v1s 0 0 acc with
      | none => none
      | some r =>
        if r.i0 = v0s.length then
          if r.i1 = v1s.length then
            match r0, r1 with
            | [], [] =>
                some { values0 := [], ok0 := false, rest0 := [],
                       values1 := [], ok1 := false, rest1 := [],
                       acc := r.acc, outs := r.outs }
            | [], b1 :: t1 =>
                some { values0 := [], ok0 := false, rest0 := [],
                       values1 := b1, ok1 := true, rest1 := t1,
                       acc := r.acc, outs := r.outs }
            | b0 :: t0, [] =>
                some { values0 := b0, ok0 := true, rest0 := t0,
                       values1 := [], ok1 := false, rest1 := [],
                       acc := r.acc, outs := r.outs }
            | b0 :: t0, b1 :: t1 =>
                (m2OuterCF cmp B f b0 true t0 b1 true t1 r.acc).map
                  (fun res => { res with outs := r.outs ++ res.outs })
          else
            match r0 with
            | [] =>
                some { values0 := [], ok0 := false, rest0 := [],
                       values1 := v1s, ok1 := ok1, rest1 := r1,
                       acc := r.acc, outs := r.outs }
            | b0 :: t0 =>
                (m2OuterCF cmp B f b0 true t0 v1s ok1 r1 r.acc).map
                  (fun res => { res with outs := r.outs ++ res.outs })
        else
          if r.i1 = v1s.length then
            match r1 with
            | [] =>
                some { values0 := v0s, ok0 := ok0, rest0 := r0,
                       values1 := [], ok1 := false, rest1 := [],
                       acc := r.acc, outs := r.outs }
            | b1 :: t1 =>
                (m2OuterCF cmp B f v0s ok0 r0 b1 true t1 r.acc).map
                  (fun res => { res with outs := r.outs ++ res.outs })
          else
            some { values0 := v0s, ok0 := ok0, rest0 := r0,
                   values1 := v1s, ok1 := ok1, rest1 := r1,
                   acc := r.acc, outs := r.outs }
    else
      some { values0 := v0s, ok0 := ok0, rest0 := r0,
             values1 := v1s, ok1 := ok1, rest1 := r1, acc := acc, outs := [] }

/-- Bounds-checked outer loop of `merge2`, see `m2OuterCF`. -/
def m2OuterC (cmp : V → V → Int) (B : Nat)
    (v0s : List V) (ok0 : Bool) (r0 : List (List V))
    (v1s : List V) (ok1 : Bool) (r1 : List (List V))
    (acc : List V) : Option (OuterRes V) :=
  m2OuterCF cmp B (r0.length + r1.length + 1) v0s ok0 r0 v1s ok1 r1 acc

/-- Bounds-checked `merge2`: `none` iff some slice access of the engine is
out of range. -/
def merge2Checked (cmp : V → V → Int) (B : Nat) (s0 s1 : List (List V)) :
    Option (List (List V)) :=
  let p0 := pull s0
  let p1 := pull s1
  (m2OuterC cmp B p0.1 p0.2.1 p0.2.2 p1.1 p1.2.1 p1.2.2 []).map
    (fun res =>
      res.outs ++ (if res.acc.length > 0 then [res.acc] else [])
        ++ flushList res.values0 res.ok0 res.rest0
        ++ flushList res.values1 res.ok1 res.rest1)

/-- Bounds-checked value loop of the k-way `merge`: the write
`buffer[offset] = v` checks `offset < B`. -/
def mergeKLoopC (B : Nat) : List V → List V → Option (List (List V))
  | [], acc => some (if acc.length > 0 then [acc] else [])
  | v :: vs, acc =>
    if acc.length < B then
      let acc2 := acc ++ [v]
      if acc2.length = B then (mergeKLoopC B vs []).map (acc2 :: ·)
      else mergeKLoopC B vs acc2
    else none

/-- Bounds-checked k-way `merge` over the tree value stream. -/
def mergeKChecked (B : Nat) (vs : List V) : Option (List (List V)) :=
  mergeKLoopC B vs []

/-! ### Budgeted variants: a consumer that stops after `m` values

The final consumer accepts a value and returns `true` while it wants more;
with a budget of `m` it returns `false` on receiving the `m`-th value.
`debuffer` (src/merge.go:59-70) forwards the values of each batch to this
consumer one at a time and reports `false` to the producing engine as soon
as the consumer does, and `merge2` returns as soon as a `yield` reports
`false` (src/merge.go:95-97, 132-134) — `flush` likewise stops pulling
(src/merge.go:143). -/

/-- The body of `debuffer`'s batch callback under the budgeted consumer:
values emitted from this batch, the remaining budget, and the flag it
returns to the producer (`false` once the consumer has stopped). -/
def debufferBatch : List V → Nat → List V × Nat × Bool
  | [], n => ([], n, true)
  | v :: vs, n =>
    if n - 1 = 0 then ([v], n - 1, false)
    else
      let r := debufferBatch vs (n - 1)
      (v :: r.1, r.2)

/-- The budgeted debuffer applied to a whole list of batches: it processes
batches in order and stops at the first batch on which the consumer stops. -/
def debufferList : List (List V) → Nat → List V × Nat × Bool
  | [], n => ([], n, true)
  | b :: bs, n =>
    let r := debufferBatch b n
    if r.2.2 then
      let r2 := debufferList bs r.2.1
      (r.1 ++ r2.1, r2.2)
    else (r.1, r.2.1, false)

/-- Result of the budgeted inner loop: the values handed to the consumer,
the remaining budget, whether the consumer stopped (in which case `merge2`
returns at once), and the loop state. -/
structure InnerResS (V : Type) where
  emitted : List V
  n : Nat
  stopped : Bool
  i0 : Nat
  i1 : Nat
  acc : List V
deriving Repr

/-- The inner loop of `merge2` run against the budgeted debuffer: identical
control flow to `m2InnerF`, except that the yield of the written prefix
passes through `debufferBatch` and the loop is abandoned (`stopped`) when
the consumer reports it is done. -/
def m2InnerSF (cmp : V → V → Int) (B : Nat) (vs0 vs1 : List V) :
    Nat → Nat → Nat → List V → Nat → InnerResS V
  | 0, i0, i1, acc, n =>
    { emitted := [], n := n, stopped := false, i0 := i0, i1 := i1, acc := acc }
  | f + 1, i0, i1, acc, n =>
    if h : i0 < vs0.length ∧ i1 < vs1.length then
      let v0 := vs0.get ⟨i0, h.1⟩
      let v1 := vs1.get ⟨i1, h.2⟩
      match (if acc.length + 1 ≥ B then some (debufferBatch acc n) else none) with
      | some (e, n2, false) =>
          { emitted := e, n := n2, stopped := true, i0 := i0, i1 := i1, acc := acc }
      | o =>
        let q : List V × List V × Nat :=
          match o with
          | some (e, n2, _) => (e, [], n2)
          | none => ([], acc, n)
        let d := cmp v0 v1
        let r :=
          if d < 0 then m2InnerSF cmp B vs0 vs1 f (i0 + 1) i1 (q.2.1 ++ [v0]) q.2.2
          else if d > 0 then m2InnerSF cmp B vs0 vs1 f i0 (i1 + 1) (q.2.1 ++ [v1]) q.2.2
          else m2InnerSF cmp B vs0 vs1 f (i0 + 1) (i1 + 1) (q.2.1 ++ [v0, v1]) q.2.2
        { r with emitted := q.1 ++ r.emitted }
    else { emitted := [], n := n, stopped := false, i0 := i0, i1 := i1, acc := acc }

/-- The budgeted inner loop of `merge2`, see `m2InnerSF`. -/
def m2InnerS (cmp : V → V → Int) (B : Nat) (vs0 vs1 : List V)
    (i0 i1 : Nat) (acc : List V) (n : Nat) : InnerResS V :=
  m2InnerSF cmp B vs0 vs1 (vs0.length + vs1.length) i0 i1 acc n

/-- State at the end of the budgeted outer loop of `merge2`. -/
structure OuterResS (V : Type) where
  emitted : List V
  n : Nat
  stopped : Bool
  values0 : List V
  ok0 : Bool
  rest0 : List (List V)
  values1 : List V
  ok1 : Bool
  rest1 : List (List V)
  acc : List V
deriving Repr

/-- The outer loop of `merge2` run against the budgeted debuffer: identical
control flow to `m2OuterF`, except that when the inner loop reports that the
consumer stopped, `merge2` returns immediately, performing no further pull
on either source. -/
def m2OuterSF (cmp : V → V → Int) (B : Nat) :
    Nat → List V → Bool → List (List V) → List V → Bool → List (List V) →
    List V → Nat → OuterResS V
  | 0, v0s, ok0, r0, v1s, ok1, r1, acc, n =>
    { emitted := [], n := n, stopped := false,
      values0 := v0s, ok0 := ok0, rest0 := r0,
      values1 := v1s, ok1 := ok1, rest1 := r1, acc := acc }
  | f + 1, v0s, ok0, r0, v1s, ok1, r1, acc, n =>
    if ok0 && ok1 then
      let r := m2InnerS cmp B v0s v1s 0 0 acc n
      if r.stopped then
        { emitted := r.emitted, n := r.n, stopped := true,
          values0 := v0s, ok0 := ok0, rest0 := r0,
          values1 := v1s, ok1 := ok1, rest1 := r1, acc := r.acc }
      else
        if r.i0 = v0s.length then
          if r.i1 = v1s.length then
            match r0, r1 with
            | [], [] =>
                { emitted := r.emitted, n := r.n, stopped := false,
                  values0 := [], ok0 := false, rest0 := [],
                  values1 := [], ok1 := false, rest1 := [], acc := r.acc }
            | [], b1 :: t1 =>
                { emitted := r.emitted, n := r.n, stopped := false,
                  values0 := [], ok0 := false, rest0 := [],
                  values1 := b1, ok1 := true, rest1 := t1, acc := r.acc }
            | b0 :: t0, [] =>
                { emitted := r.emitted, n := r.n, stopped := false,
                  values0 := b0, ok0 := true, rest0 := t0,
                  values1 := [], ok1 := false, rest1 := [], acc := r.acc }
            | b0 :: t0, b1 :: t1 =>
                let res := m2OuterSF cmp B f b0 true t0 b1 true t1 r.acc r.n
                { res with emitted := r.emitted ++ res.emitted }
          else
            match r0 with
            | [] =>
                { emitted := r.emitted, n := r.n, stopped := false,
                  values0 := [], ok0 := false, rest0 := [],
                  values1 := v1s, ok1 := ok1, rest1 := r1, acc := r.acc }
            | b0 :: t0 =>
                let res := m2OuterSF cmp B f b0 true t0 v1s ok1 r1 r.acc r.n
                { res with emitted := r.emitted ++ res.emitted }
        else
          if r.i1 = v1s.length then
            match r1 with
            | [] =>
                { emitted := r.emitted, n := r.n, stopped := false,
                  values0 := v0s, ok0 := ok0, rest0 := r0,
                  values1 := [], ok1 := false, rest1 := [], acc := r.acc }
            | b1 :: t1 =>
                let res := m2OuterSF cmp B f v0s ok0 r0 b1 true t1 r.acc r.n
                { res with emitted := r.emitted ++ res.emitted }
          else
            { emitted := r.emitted, n := r.n, stopped := false,
              values0 := v0s, ok0 := ok0, rest0 := r0,
              values1 := v1s, ok1 := ok1, rest1 := r1, acc := r.acc }
    else
      { emitted := [], n := n, stopped := false,
        values0 := v0s, ok0 := ok0, rest0 := r0,
        values1 := v1s, ok1 := ok1, rest1 := r1, acc := acc }

/-- The budgeted outer loop of `merge2`, see `m2OuterSF`. -/
def m2OuterS (cmp : V → V → Int) (B : Nat)
    (v0s : List V) (ok0 : Bool) (r0 : List (List V))
    (v1s : List V) (ok1 : Bool) (r1 : List (List V))
    (acc : List V) (n : Nat) : OuterResS V :=
  m2OuterSF cmp B (r0.length + r1.length + 1) v0s ok0 r0 v1s ok1 r1 acc n

/-- `flush` (src/merge.go:142-146) run against the budgeted debuffer: while
`ok` holds and the consumer keeps accepting, yield the current batch and
pull the next; stop pulling as soon as the consumer stops.  Each iteration
pulls a batch, so the number of unpulled batches bounds the iteration
count. -/
def flushStopF : Nat → List V → Bool → List (List V) → Nat →
    List V × Nat × Bool
  | 0, _, _, _, n => ([], n, true)
  | f + 1, v, ok, r, n =>
    if ok then
      let y := debufferBatch v n
      if y.2.2 then
        match r with
        | [] => (y.1, y.2.1, true)
        | b :: t =>
          let fr := flushStopF f b true t y.2.1
          (y.1 ++ fr.1, fr.2)
      else (y.1, y.2.1, false)
    else ([], n, true)

/-- `flush` run against the budgeted debuffer, see `flushStopF`. -/
def flushStop (v : List V) (ok : Bool) (r : List (List V)) (n : Nat) :
    List V × Nat × Bool :=
  flushStopF (r.length + 1) v ok r n

/-- The composed pipeline `debuffer(merge2(...))` (src/merge.go:31) run with
a consumer of budget `m`: the values the consumer received, the remaining
budget, and whether the consumer stopped the iteration. -/
def merge2Stop (cmp : V → V → Int) (B : Nat) (s0 s1 : List (List V))
    (m : Nat) : List V × Nat × Bool :=
  let p0 := pull s0
  let p1 := pull s1
  let res := m2OuterS cmp B p0.1 p0.2.1 p0.2.2 p1.1 p1.2.1 p1.2.2 [] m
  if res.stopped then (res.emitted, res.n, true)
  else
    let y := if res.acc.length > 0 then debufferBatch res.acc res.n
             else ([], res.n, true)
    if y.2.2 then
      let f0 := flushStop res.values0 res.ok0 res.rest0 y.2.1
      let f1 := flushStop res.values1 res.ok1 res.rest1 f0.2.1
      (res.emitted ++ y.1 ++ f0.1 ++ f1.1, f1.2.1, !(f0.2.2 && f1.2.2))
    else (res.emitted ++ y.1, y.2.1, true)

/-- The composed pipeline `debuffer(merge2(...))` (src/merge.go:31) run to
completion (a consumer that never stops). -/
def pipeline (cmp : V → V → Int) (B : Nat) (s0 s1 : List (List V)) :
    List V :=
  debuffer (merge2 cmp B s0 s1)

/-- The values emitted by an inner-loop run, batches flushed during the loop
followed by the final written buffer prefix. -/
def innerEmit (r : InnerRes V) : List V := r.outs.flatten ++ r.acc

/-! ### Helper lemmas about the inner loop -/

/-- The fuelled inner loop does not depend on the fuel once the fuel bounds
the number of remaining cursor steps. -/
theorem m2InnerF_fuel (cmp : V → V → Int) (B : Nat) (vs0 vs1 : List V) :
    ∀ f g i0 i1 acc,
      (vs0.length - i0) + (vs1.length - i1) ≤ f →
      (vs0.length - i0) + (vs1.length - i1) ≤ g →
      m2InnerF cmp B vs0 vs1 f i0 i1 acc = m2InnerF cmp B vs0 vs1 g i0 i1 acc := by
  intro f
  induction f with
  | zero =>
    intro g i0 i1 acc hf hg
    have h0 : ¬(i0 < vs0.length ∧ i1 < vs1.length) := by omega
    cases g with
    | zero => rfl
    | succ g => simp [m2InnerF, h0]
  | succ f ih =>
    intro g i0 i1 acc hf hg
    cases g with
    | zero =>
      have h0 : ¬(i0 < vs0.length ∧ i1 < vs1.length) := by omega
      simp [m2InnerF, h0]
    | succ g =>
      by_cases h : i0 < vs0.length ∧ i1 < vs1.length
      · simp only [m2InnerF, dif_pos h]
        have h1 : ∀ a, m2InnerF cmp B vs0 vs1 f (i0 + 1) i1 a =
            m2InnerF cmp B vs0 vs1 g (i0 + 1) i1 a :=
          fun a => ih g (i0 + 1) i1 a (by omega) (by omega)
        have h2 : ∀ a, m2InnerF cmp B vs0 vs1 f i0 (i1 + 1) a =
            m2InnerF cmp B vs0 vs1 g i0 (i1 + 1) a :=
          fun a => ih g i0 (i1 + 1) a (by omega) (by omega)
        have h3 : ∀ a, m2InnerF cmp B vs0 vs1 f (i0 + 1) (i1 + 1) a =
            m2InnerF cmp B vs0 vs1 g (i0 + 1) (i1 + 1) a :=
          fun a => ih g (i0 + 1) (i1 + 1) a (by omega) (by omega)
        split <;> simp [h1, h2, h3]
      · simp [m2InnerF, h]

/-- The values emitted by the inner loop are the pending buffer prefix
followed by the values it emits when started with an empty buffer: the
buffer batching does not change the emitted value stream. -/
theorem m2InnerF_acc (cmp : V → V → Int) (B : Nat) (vs0 vs1 : List V) :
    ∀ f i0 i1 acc,
      innerEmit (m2InnerF cmp B vs0 vs1 f i0 i1 acc) =
        acc ++ innerEmit (m2InnerF cmp B vs0 vs1 f i0 i1 []) := by
  intro f
  induction f with
  | zero => intro i0 i1 acc; simp [m2InnerF, innerEmit]
  | succ f ih =>
    intro i0 i1 acc
    have ihP : ∀ j0 j1 a,
        (m2InnerF cmp B vs0 vs1 f j0 j1 a).outs.flatten ++
            (m2InnerF cmp B vs0 vs1 f j0 j1 a).acc =
          a ++ ((m2InnerF cmp B vs0 vs1 f j0 j1 []).outs.flatten ++
            (m2InnerF cmp B vs0 vs1 f j0 j1 []).acc) := by
      intro j0 j1 a
      simpa [innerEmit] using ih j0 j1 a
    by_cases h : i0 < vs0.length ∧ i1 < vs1.length
    · simp only [m2InnerF, dif_pos h, innerEmit]
      split_ifs <;> first
        | omega
        | (dsimp only
           simp only [List.flatten_append, List.append_assoc]
           conv_lhs => rw [ihP]
           conv_rhs => rw [ihP]
           simp)
    · simp [m2InnerF, h, innerEmit]

/-- Projection form of `m2InnerF_acc`. -/
theorem m2InnerF_accP (cmp : V → V → Int) (B : Nat) (vs0 vs1 : List V)
    (f j0 j1 : Nat) (a : List V) :
    (m2InnerF cmp B vs0 vs1 f j0 j1 a).outs.flatten ++
        (m2InnerF cmp B vs0 vs1 f j0 j1 a).acc =
      a ++ ((m2InnerF cmp B vs0 vs1 f j0 j1 []).outs.flatten ++
        (m2InnerF cmp B vs0 vs1 f j0 j1 []).acc) := by
  simpa [innerEmit] using m2InnerF_acc cmp B vs0 vs1 f j0 j1 a

/-- The inner loop leaves its cursors within their batches and only exits
once a cursor has reached the end of its batch. -/
theorem m2InnerF_range (cmp : V → V → Int) (B : Nat) (vs0 vs1 : List V) :
    ∀ f i0 i1 acc,
      i0 ≤ vs0.length → i1 ≤ vs1.length →
      (vs0.length - i0) + (vs1.length - i1) ≤ f →
      (m2InnerF cmp B vs0 vs1 f i0 i1 acc).i0 ≤ vs0.length ∧
      (m2InnerF cmp B vs0 vs1 f i0 i1 acc).i1 ≤ vs1.length ∧
      ((m2InnerF cmp B vs0 vs1 f i0 i1 acc).i0 = vs0.length ∨
        (m2InnerF cmp B vs0 vs1 f i0 i1 acc).i1 = vs1.length) := by
  intro f
  induction f with
  | zero =>
    intro i0 i1 acc h0 h1 hm
    simp only [m2InnerF]
    omega
  | succ f ih =>
    intro i0 i1 acc h0 h1 hm
    by_cases h : i0 < vs0.length ∧ i1 < vs1.length
    · simp only [m2InnerF, dif_pos h]
      split_ifs <;> dsimp only <;>
        exact ih _ _ _ (by omega) (by omega) (by omega)
    · simp only [m2InnerF, dif_neg h]
      omega

/-! ### Claim theorems: functional behaviour of the two-way engine -/

/-- C6: in the two-way merge's inner loop, whenever the comparator reports
the two current head values equal, both heads are emitted — the left
(first) source's value immediately before the right source's value — and
both cursors advance; equal elements from different sources are never
deduplicated.  Stated on the emitted value stream: from a state with equal
heads the loop emits the pending buffer, then the left head, then the right
head, and continues exactly as from the state with both cursors advanced. -/
theorem c6_equal_heads_emit_both (cmp : V → V → Int) (B : Nat)
    (vs0 vs1 : List V) (i0 i1 : Nat) (acc : List V)
    (h0 : i0 < vs0.length) (h1 : i1 < vs1.length)
    (heq : cmp (vs0.get ⟨i0, h0⟩) (vs1.get ⟨i1, h1⟩) = 0) :
    innerEmit (m2Inner cmp B vs0 vs1 i0 i1 acc) =
      acc ++ [vs0.get ⟨i0, h0⟩, vs1.get ⟨i1, h1⟩] ++
        innerEmit (m2Inner cmp B vs0 vs1 (i0 + 1) (i1 + 1) []) := by
  have hd1 : ¬(cmp (vs0.get ⟨i0, h0⟩) (vs1.get ⟨i1, h1⟩) < 0) := by omega
  have hd2 : ¬(cmp (vs0.get ⟨i0, h0⟩) (vs1.get ⟨i1, h1⟩) > 0) := by omega
  obtain ⟨L, hL⟩ : ∃ L, vs0.length + vs1.length = L + 1 :=
    ⟨vs0.length + vs1.length - 1, by omega⟩
  unfold m2Inner
  rw [hL, m2InnerF_acc, List.append_assoc]
  congr 1
  conv_lhs => rw [m2InnerF]
  rw [dif_pos (show i0 < vs0.length ∧ i1 < vs1.length from ⟨h0, h1⟩)]
  dsimp only
  rw [if_neg hd1, if_neg hd2]
  have hfuel : m2InnerF cmp B vs0 vs1 L (i0 + 1) (i1 + 1) [] =
      m2InnerF cmp B vs0 vs1 (L + 1) (i0 + 1) (i1 + 1) [] :=
    m2InnerF_fuel cmp B vs0 vs1 L (L + 1) (i0 + 1) (i1 + 1) [] (by omega) (by omega)
  simp only [innerEmit, List.flatten_append, List.append_assoc]
  conv_lhs => rw [m2InnerF_accP]
  rw [hfuel]
  split_ifs <;> simp

/-- Witness for `c6_equal_heads_emit_both` at a concrete input. -/
theorem c6_equal_heads_emit_both_witness :
    innerEmit (m2Inner cmpInt 128 [3, 9] [3, 4] 0 0 [7]) =
      [7] ++ [3, 3] ++ innerEmit (m2Inner cmpInt 128 [3, 9] [3, 4] 1 1 []) := by
  have h := c6_equal_heads_emit_both cmpInt 128 [3, 9] [3, 4] 0 0 [7]
    (by decide) (by decide) (by decide)
  simpa using h

/-! ### Claim theorems: the k-way engine's batch shape -/

/-- Every batch produced by the k-way value loop is non-empty, has length at
most `B`, and all batches except possibly the last have length exactly `B`,
whenever the pending written prefix is shorter than the buffer. -/
theorem mergeKLoop_chunks (vs : List V) :
    ∀ acc : List V, acc.length < bufferSize →
      (∀ b ∈ mergeKLoop bufferSize vs acc, b ≠ [] ∧ b.length ≤ bufferSize) ∧
      (∀ i, i + 1 < (mergeKLoop bufferSize vs acc).length →
        ((mergeKLoop bufferSize vs acc).getD i []).length = bufferSize) := by
  induction vs with
  | nil =>
    intro acc hacc
    constructor
    · intro b hb
      simp only [mergeKLoop] at hb
      split at hb
      · simp only [List.mem_singleton] at hb
        subst hb
        constructor
        · intro hc; subst hc; simp_all
        · omega
      · simp at hb
    · intro i hi
      simp only [mergeKLoop] at hi
      split at hi <;> simp at hi
  | cons v vs ih =>
    intro acc hacc
    by_cases hfull : (acc ++ [v]).length = bufferSize
    · have h1 := ih [] (by simp [bufferSize])
      constructor
      · intro b hb
        simp only [mergeKLoop, if_pos hfull] at hb
        rcases List.mem_cons.mp hb with hb | hb
        · subst hb
          constructor
          · intro hc
            rw [hc] at hfull
            simp [bufferSize] at hfull
          · omega
        · exact h1.1 b hb
      · intro i hi
        simp only [mergeKLoop, if_pos hfull] at hi ⊢
        cases i with
        | zero => simpa using hfull
        | succ j =>
          simp only [List.getD_cons_succ]
          exact h1.2 j (by simpa using hi)
    · have hlt : (acc ++ [v]).length < bufferSize := by
        simp only [List.length_append, List.length_singleton] at hfull ⊢
        omega
      have h1 := ih (acc ++ [v]) hlt
      simpa only [mergeKLoop, if_neg hfull] using h1

/-- C10: every batch yielded by the k-way engine `merge` is non-empty and
has length at most `bufferSize` (128), and every yielded batch except
possibly the last has length exactly `bufferSize`, for any abstract tree
value stream. -/
theorem c10_kway_batch_sizes (vs : List V) :
    (∀ b ∈ mergeK bufferSize vs, b ≠ [] ∧ b.length ≤ bufferSize) ∧
    (∀ i, i + 1 < (mergeK bufferSize vs).length →
      ((mergeK bufferSize vs).getD i []).length = bufferSize) := by
  have h := mergeKLoop_chunks vs [] (by simp [bufferSize])
  simpa [mergeK] using h

/-- Witness for `c10_kway_batch_sizes`: a 130-value stream yields a full
first batch of length 128 that is in particular non-empty. -/
theorem c10_kway_batch_sizes_witness :
    ((mergeK bufferSize (List.replicate 130 (0 : Int))).getD 0 []).length = bufferSize ∧
    (mergeK bufferSize (List.replicate 130 (0 : Int))).getD 0 [] ≠ [] :=
  ⟨(c10_kway_batch_sizes (List.replicate 130 (0 : Int))).2 0 (by decide),
   ((c10_kway_batch_sizes (List.replicate 130 (0 : Int))).1
     ((mergeK bufferSize (List.replicate 130 (0 : Int))).getD 0 []) (by decide)).1⟩

/-! ### Claim theorems: entry points and concrete behaviour -/

/-- C7: `MergeFunc` (and `MergeSliceFunc`) applied to zero sequences yields
the empty sequence, and applied to exactly one sequence returns that very
sequence unchanged, at any batch capacity. -/
theorem c7_degenerate_inputs (cmp : V → V → Int) (B : Nat) (s : List V)
    (sb : List (List V)) :
    mergeFuncB cmp B [] = [] ∧ mergeFuncB cmp B [s] = s ∧
    MergeFunc cmp [] = [] ∧ MergeFunc cmp [s] = s ∧
    MergeSliceFunc cmp [] = ([] : List (List V)) ∧
    MergeSliceFunc cmp [sb] = sb :=
  ⟨rfl, rfl, rfl, rfl, rfl, rfl⟩

/-- C1: evaluating the code on the sorted inputs `[1,3,5]` and `[2,3,4]`:
the output is `[1,2,3,3,4,1,3,5]`, which is not sorted under the comparator
and is not a multiset union of the inputs (the value `1` occurs twice).
After the left batch is consumed the loop re-reads the right batch from
index 0 and `flush` re-yields it whole, re-emitting values. -/
theorem c1_merge_not_sorted_union :
    MergeFunc cmpInt [[1, 3, 5], [2, 3, 4]] = [1, 2, 3, 3, 4, 1, 3, 5] ∧
    ¬ List.Pairwise (fun a b : Int => cmpInt a b ≤ 0)
        (MergeFunc cmpInt [[1, 3, 5], [2, 3, 4]]) ∧
    (MergeFunc cmpInt [[1, 3, 5], [2, 3, 4]]).count 1 ≠
      ([1, 3, 5] ++ [2, 3, 4]).count 1 := by
  refine ⟨by decide, by decide, by decide⟩

/-- C2: evaluating the code on the sorted inputs `[1,3,5]` and `[2,3,4]`:
the output has 8 values, not the sum 6 of the input lengths. -/
theorem c2_length_mismatch :
    (MergeFunc cmpInt [[1, 3, 5], [2, 3, 4]]).length ≠
      [(1 : Int), 3, 5].length + [(2 : Int), 3, 4].length := by
  decide

/-- C3: merging `[1,3,5]` and `[2,3,4]` does not yield `[1,2,3,3,4,5]`;
the code yields `[1,2,3,3,4,1,3,5]`. -/
theorem c3_literal_example_fails :
    MergeFunc cmpInt [[1, 3, 5], [2, 3, 4]] ≠ [1, 2, 3, 3, 4, 5] ∧
    MergeFunc cmpInt [[1, 3, 5], [2, 3, 4]] = [1, 2, 3, 3, 4, 1, 3, 5] := by
  refine ⟨by decide, by decide⟩

/-- C4: with batched sources `[[2]]` and `[[1,3]]`, source 0 is exhausted
after the loop emitted `[1,2]`; the not-yet-emitted remainder of source 1
is `[3]`, but `flush` re-yields the whole current batch `[1,3]`, so the
output is `[1,2,1,3]` rather than `[1,2,3]`. -/
theorem c4_flush_reemits_consumed_values :
    debuffer (merge2 cmpInt bufferSize [[2]] [[1, 3]]) = [1, 2, 1, 3] ∧
    debuffer (merge2 cmpInt bufferSize [[2]] [[1, 3]]) ≠ [1, 2, 3] := by
  refine ⟨by decide, by decide⟩

/-- C5: the merged value sequence depends on the internal batch capacity:
capacities 7 and 128 give different outputs on the sorted inputs
`[1,2,3,4,5,6,7,8]` and `[5,100]`, and at capacity 1 the equal-heads branch
writes `buffer[offset+1]` out of range (the checked engine faults). -/
theorem c5_batch_capacity_changes_output :
    mergeFuncB cmpInt 7 [[1, 2, 3, 4, 5, 6, 7, 8], [5, 100]] ≠
      mergeFuncB cmpInt 128 [[1, 2, 3, 4, 5, 6, 7, 8], [5, 100]] ∧
    merge2Checked cmpInt 1 (bufferedFunc 1 [1, 3, 5]) (bufferedFunc 1 [2, 3, 4]) =
      none := by
  refine ⟨by decide, by decide⟩

/-! ### Index safety: the checked engines never fault at capacity 128 -/

/-- With a buffer capacity of at least two, every slice access of the inner
loop is in range: the checked inner loop computes exactly the plain one. -/
theorem m2InnerCF_eq (cmp : V → V → Int) (B : Nat) (hB : 2 ≤ B)
    (vs0 vs1 : List V) :
    ∀ f i0 i1 acc,
      m2InnerCF cmp B vs0 vs1 f i0 i1 acc =
        some (m2InnerF cmp B vs0 vs1 f i0 i1 acc) := by
  intro f
  induction f with
  | zero => intro i0 i1 acc; rfl
  | succ f ih =>
    intro i0 i1 acc
    by_cases h : i0 < vs0.length ∧ i1 < vs1.length
    · simp only [m2InnerCF, m2InnerF, if_pos h, dif_pos h,
        List.getElem?_eq_getElem h.1, List.getElem?_eq_getElem h.2,
        List.get_eq_getElem]
      by_cases hB2 : acc.length + 1 ≥ B
      · rw [if_pos hB2]
        dsimp only
        simp only [List.length_nil]
        split_ifs <;> first | omega | simp [ih]
      · rw [if_neg hB2]
        dsimp only
        split_ifs <;> first | omega | simp [ih]
    · simp [m2InnerCF, m2InnerF, h]

/-- Wrapper form of `m2InnerCF_eq`. -/
theorem m2InnerC_eq (cmp : V → V → Int) (B : Nat) (hB : 2 ≤ B)
    (vs0 vs1 : List V) (i0 i1 : Nat) (acc : List V) :
    m2InnerC cmp B vs0 vs1 i0 i1 acc = some (m2Inner cmp B vs0 vs1 i0 i1 acc) :=
  m2InnerCF_eq cmp B hB vs0 vs1 _ i0 i1 acc

/-- With a buffer capacity of at least two, the checked outer loop computes
exactly the plain one. -/
theorem m2OuterCF_eq (cmp : V → V → Int) (B : Nat) (hB : 2 ≤ B) :
    ∀ (f : Nat) (v0s : List V) (ok0 : Bool) (r0 : List (List V))
      (v1s : List V) (ok1 : Bool) (r1 : List (List V)) (acc : List V),
      m2OuterCF cmp B f v0s ok0 r0 v1s ok1 r1 acc =
        some (m2OuterF cmp B f v0s ok0 r0 v1s ok1 r1 acc) := by
  intro f
  induction f with
  | zero => intro v0s ok0 r0 v1s ok1 r1 acc; rfl
  | succ f ih =>
    intro v0s ok0 r0 v1s ok1 r1 acc
    by_cases h : (ok0 && ok1) = true
    · simp only [m2OuterCF, m2OuterF, if_pos h, m2InnerC_eq cmp B hB]
      split_ifs <;> rcases r0 with _ | ⟨b0, t0⟩ <;> rcases r1 with _ | ⟨b1, t1⟩ <;>
        simp [ih]
    · simp [m2OuterCF, m2OuterF, h]

/-- With a buffer capacity of at least two, the checked pairwise engine
computes exactly the plain one: no slice access faults. -/
theorem merge2Checked_eq (cmp : V → V → Int) (B : Nat) (hB : 2 ≤ B)
    (s0 s1 : List (List V)) :
    merge2Checked cmp B s0 s1 = some (merge2 cmp B s0 s1) := by
  simp only [merge2Checked, merge2, m2OuterC, m2Outer, m2OuterCF_eq cmp B hB]
  rfl

/-- With a positive buffer capacity and a written prefix shorter than the
buffer, the checked k-way loop computes exactly the plain one. -/
theorem mergeKLoopC_eq (B : Nat) (hB : 1 ≤ B) :
    ∀ (vs acc : List V), acc.length < B →
      mergeKLoopC B vs acc = some (mergeKLoop B vs acc) := by
  intro vs
  induction vs with
  | nil => intro acc hacc; rfl
  | cons v vs ih =>
    intro acc hacc
    by_cases hfull : (acc ++ [v]).length = B
    · have hz : ([] : List V).length < B := by simpa using hB
      simp [mergeKLoopC, mergeKLoop, hacc, hfull, ih [] hz]
    · have hlt : (acc ++ [v]).length < B := by
        simp only [List.length_append, List.length_singleton] at hfull ⊢
        omega
      have hfull2 : ¬(acc.length + 1 = B) := by simpa using hfull
      simp [mergeKLoopC, mergeKLoop, hacc, hfull2, ih (acc ++ [v]) hlt]

/-- C9: for arbitrary input batch sequences (including empty batches) and
any comparator, every slice access in `merge2` and in the k-way `merge` at
the source's capacity `bufferSize` is in bounds: the reads `values0[i0]`,
`values1[i1]` and every buffer write (including the two writes of the
equal-heads branch) stay within range, so the bounds-checked engines return
exactly the plain results and never fault. -/
theorem c9_index_safety (V : Type) :
    (∀ (cmp : V → V → Int) (s0 s1 : List (List V)),
      merge2Checked cmp bufferSize s0 s1 = some (merge2 cmp bufferSize s0 s1)) ∧
    (∀ vs : List V, mergeKChecked bufferSize vs = some (mergeK bufferSize vs)) :=
  ⟨fun cmp s0 s1 => merge2Checked_eq cmp bufferSize (by norm_num [bufferSize]) s0 s1,
   fun vs => mergeKLoopC_eq bufferSize (by norm_num [bufferSize]) vs []
     (by simp [bufferSize])⟩

/-! ### Early termination: the budgeted pipeline -/

/-- `debufferBatch` forwards the first `n` values of the batch, keeps the
unused budget, and reports `true` iff the batch was shorter than the
budget. -/
theorem debufferBatch_eq :
    ∀ (vs : List V) (n : Nat), 1 ≤ n →
      debufferBatch vs n = (vs.take n, n - vs.length, decide (vs.length < n)) := by
  intro vs
  induction vs with
  | nil =>
    intro n hn
    simp [debufferBatch]
    omega
  | cons v vs ih =>
    intro n hn
    obtain ⟨m, rfl⟩ : ∃ m, n = m + 1 := ⟨n - 1, by omega⟩
    by_cases hm : m = 0
    · subst hm
      simp [debufferBatch]
    · have h2 : ¬(m + 1 - 1 = 0) := by omega
      have hih := ih m (by omega)
      simp only [debufferBatch, if_neg h2, Nat.add_sub_cancel, hih]
      rw [if_neg hm]
      simp only [List.take_succ_cons, List.length_cons, Nat.add_sub_cancel,
        Prod.mk.injEq, true_and]
      refine ⟨by omega, ?_⟩
      simp only [decide_eq_decide]
      omega

/-- `debufferList` forwards the first `n` values of the flattened batches,
keeps the unused budget, and reports `true` iff fewer than `n` values were
available. -/
theorem debufferList_eq :
    ∀ (bs : List (List V)) (n : Nat), 1 ≤ n →
      debufferList bs n =
        (bs.flatten.take n, n - bs.flatten.length, decide (bs.flatten.length < n)) := by
  intro bs
  induction bs with
  | nil =>
    intro n hn
    simp [debufferList]
    omega
  | cons b bs ih =>
    intro n hn
    simp only [debufferList, debufferBatch_eq b n hn]
    by_cases hc : b.length < n
    · have h1 : 1 ≤ n - b.length := by omega
      have hcc : decide (b.length < n) = true := by simpa using hc
      simp only [hcc, if_true, ih (n - b.length) h1]
      simp only [List.flatten_cons, List.take_append_eq_append_take,
        List.length_append, Prod.mk.injEq, true_and]
      refine ⟨by omega, ?_⟩
      simp only [decide_eq_decide]
      omega
    · have hcc : decide (b.length < n) = false := by simpa using hc
      simp only [hcc, Bool.false_eq_true, if_false]
      have ht : bs.flatten.take (n - b.length) = [] := by
        have h0 : n - b.length = 0 := by omega
        simp [h0]
      simp only [List.flatten_cons, List.take_append_eq_append_take, ht,
        List.append_nil, List.length_append, Prod.mk.injEq, true_and]
      refine ⟨by omega, ?_⟩
      have hnn : ¬ (b.length + bs.flatten.length < n) := by omega
      exact (decide_eq_false hnn).symm

/-- Splitting a budgeted debuffer run over an append of batch lists. -/
theorem debufferList_append (xs ys : List (List V)) :
    ∀ n, debufferList (xs ++ ys) n =
      if (debufferList xs n).2.2 then
        ((debufferList xs n).1 ++ (debufferList ys (debufferList xs n).2.1).1,
          (debufferList ys (debufferList xs n).2.1).2)
      else debufferList xs n := by
  induction xs with
  | nil => intro n; simp [debufferList]
  | cons b xs ih =>
    intro n
    simp only [List.cons_append, debufferList, List.append_eq]
    by_cases hc : (debufferBatch b n).2.2
    · simp only [if_pos hc, ih ((debufferBatch b n).2.1)]
      by_cases hd : (debufferList xs (debufferBatch b n).2.1).2.2
      · simp only [if_pos hd]
        simp [List.append_assoc]
      · simp only [if_neg hd]
    · simp [if_neg hc]

/-- The budgeted `flush` equals the budgeted debuffer applied to the batch
list that the full-run `flush` yields. -/
theorem flushStopF_eq :
    ∀ (f : Nat) (v : List V) (ok : Bool) (r : List (List V)) (n : Nat),
      r.length < f →
      flushStopF f v ok r n = debufferList (flushList v ok r) n := by
  intro f
  induction f with
  | zero => intro v ok r n hr; omega
  | succ f ih =>
    intro v ok r n hr
    by_cases hok : ok = true
    · subst hok
      simp only [flushStopF, if_pos rfl, flushList, debufferList]
      by_cases hc : (debufferBatch v n).2.2
      · simp only [if_pos hc]
        cases r with
        | nil => simp [debufferList]
        | cons b t =>
          have hlen : t.length < f := by
            simp only [List.length_cons] at hr
            omega
          have := ih b true t (debufferBatch v n).2.1 hlen
          simp [this, flushList]
      · simp [if_neg hc]
    · have hok2 : ok = false := by simpa using hok
      subst hok2
      simp [flushStopF, flushList, debufferList]

/-- Wrapper form of `flushStopF_eq`. -/
theorem flushStop_eq (v : List V) (ok : Bool) (r : List (List V)) (n : Nat) :
    flushStop v ok r n = debufferList (flushList v ok r) n :=
  flushStopF_eq (r.length + 1) v ok r n (by omega)

/-- The outer loop only ever removes batches from the unpulled remainders. -/
theorem m2OuterF_rest_mono (cmp : V → V → Int) (B : Nat) :
    ∀ (f : Nat) (v0s : List V) (ok0 : Bool) (r0 : List (List V))
      (v1s : List V) (ok1 : Bool) (r1 : List (List V)) (acc : List V),
      (m2OuterF cmp B f v0s ok0 r0 v1s ok1 r1 acc).rest0.length ≤ r0.length ∧
      (m2OuterF cmp B f v0s ok0 r0 v1s ok1 r1 acc).rest1.length ≤ r1.length := by
  intro f
  induction f with
  | zero => intro v0s ok0 r0 v1s ok1 r1 acc; simp [m2OuterF]
  | succ f ih =>
    intro v0s ok0 r0 v1s ok1 r1 acc
    by_cases h : (ok0 && ok1) = true
    · simp only [m2OuterF, if_pos h]
      by_cases h0 : (m2Inner cmp B v0s v1s 0 0 acc).i0 = v0s.length
      · by_cases h1 : (m2Inner cmp B v0s v1s 0 0 acc).i1 = v1s.length
        · simp only [if_pos h0, if_pos h1]
          rcases r0 with _ | ⟨b0, t0⟩ <;> rcases r1 with _ | ⟨b1, t1⟩
          · simp
          · simp
          · simp
          · have hih := ih b0 true t0 b1 true t1 (m2Inner cmp B v0s v1s 0 0 acc).acc
            dsimp only
            exact ⟨le_trans hih.1 (by simp), le_trans hih.2 (by simp)⟩
        · simp only [if_pos h0, if_neg h1]
          rcases r0 with _ | ⟨b0, t0⟩
          · simp
          · have hih := ih b0 true t0 v1s ok1 r1 (m2Inner cmp B v0s v1s 0 0 acc).acc
            dsimp only
            exact ⟨le_trans hih.1 (by simp), hih.2⟩
      · by_cases h1 : (m2Inner cmp B v0s v1s 0 0 acc).i1 = v1s.length
        · simp only [if_neg h0, if_pos h1]
          rcases r1 with _ | ⟨b1, t1⟩
          · simp
          · have hih := ih v0s ok0 r0 b1 true t1 (m2Inner cmp B v0s v1s 0 0 acc).acc
            dsimp only
            exact ⟨hih.1, le_trans hih.2 (by simp)⟩
        · simp only [if_neg h0, if_neg h1]
          simp
    · simp [m2OuterF, h]

/-- After the outer loop of `merge2`, at least one source is exhausted. -/
theorem m2OuterF_post (cmp : V → V → Int) (B : Nat) :
    ∀ (f : Nat) (v0s : List V) (ok0 : Bool) (r0 : List (List V))
      (v1s : List V) (ok1 : Bool) (r1 : List (List V)) (acc : List V),
      r0.length + r1.length < f →
      (m2OuterF cmp B f v0s ok0 r0 v1s ok1 r1 acc).ok0 = false ∨
      (m2OuterF cmp B f v0s ok0 r0 v1s ok1 r1 acc).ok1 = false := by
  intro f
  induction f with
  | zero => intro v0s ok0 r0 v1s ok1 r1 acc hf; omega
  | succ f ih =>
    intro v0s ok0 r0 v1s ok1 r1 acc hf
    by_cases h : (ok0 && ok1) = true
    · simp only [m2OuterF, if_pos h]
      by_cases h0 : (m2Inner cmp B v0s v1s 0 0 acc).i0 = v0s.length
      · by_cases h1 : (m2Inner cmp B v0s v1s 0 0 acc).i1 = v1s.length
        · simp only [if_pos h0, if_pos h1]
          rcases r0 with _ | ⟨b0, t0⟩ <;> rcases r1 with _ | ⟨b1, t1⟩
          · simp
          · simp
          · simp
          · dsimp only
            exact ih b0 true t0 b1 true t1 (m2Inner cmp B v0s v1s 0 0 acc).acc
              (by simp only [List.length_cons] at hf ⊢; omega)
        · simp only [if_pos h0, if_neg h1]
          rcases r0 with _ | ⟨b0, t0⟩
          · simp
          · dsimp only
            exact ih b0 true t0 v1s ok1 r1 (m2Inner cmp B v0s v1s 0 0 acc).acc
              (by simp only [List.length_cons] at hf ⊢; omega)
      · by_cases h1 : (m2Inner cmp B v0s v1s 0 0 acc).i1 = v1s.length
        · simp only [if_neg h0, if_pos h1]
          rcases r1 with _ | ⟨b1, t1⟩
          · simp
          · dsimp only
            exact ih v0s ok0 r0 b1 true t1 (m2Inner cmp B v0s v1s 0 0 acc).acc
              (by simp only [List.length_cons] at hf ⊢; omega)
        · exfalso
          have hrange := (m2InnerF_range cmp B v0s v1s (v0s.length + v1s.length)
            0 0 acc (by omega) (by omega) (by omega)).2.2
          simp only [m2Inner] at h0 h1
          tauto
    · simp only [m2OuterF, if_neg h]
      cases ok0 <;> cases ok1 <;> simp_all

theorem debufferList_cons_false (b : List V) (bs : List (List V)) (n : Nat)
    (e : List V) (n2 : Nat) (hy : debufferBatch b n = (e, n2, false)) :
    debufferList (b :: bs) n = (e, n2, false) := by
  simp [debufferList, hy]

theorem debufferList_cons_true (b : List V) (bs : List (List V)) (n : Nat)
    (e : List V) (n2 : Nat) (hy : debufferBatch b n = (e, n2, true)) :
    debufferList (b :: bs) n =
      (e ++ (debufferList bs n2).1, (debufferList bs n2).2) := by
  simp [debufferList, hy]

theorem m2InnerSF_lock (cmp : V → V → Int) (B : Nat) (vs0 vs1 : List V) :
    ∀ f i0 i1 acc n, 1 ≤ n →
      (m2InnerSF cmp B vs0 vs1 f i0 i1 acc n).emitted =
        (debufferList (m2InnerF cmp B vs0 vs1 f i0 i1 acc).outs n).1 ∧
      (m2InnerSF cmp B vs0 vs1 f i0 i1 acc n).n =
        (debufferList (m2InnerF cmp B vs0 vs1 f i0 i1 acc).outs n).2.1 ∧
      (m2InnerSF cmp B vs0 vs1 f i0 i1 acc n).stopped =
        (!(debufferList (m2InnerF cmp B vs0 vs1 f i0 i1 acc).outs n).2.2) ∧
      ((debufferList (m2InnerF cmp B vs0 vs1 f i0 i1 acc).outs n).2.2 = true →
        (m2InnerSF cmp B vs0 vs1 f i0 i1 acc n).i0 =
          (m2InnerF cmp B vs0 vs1 f i0 i1 acc).i0 ∧
        (m2InnerSF cmp B vs0 vs1 f i0 i1 acc n).i1 =
          (m2InnerF cmp B vs0 vs1 f i0 i1 acc).i1 ∧
        (m2InnerSF cmp B vs0 vs1 f i0 i1 acc n).acc =
          (m2InnerF cmp B vs0 vs1 f i0 i1 acc).acc ∧
        1 ≤ (debufferList (m2InnerF cmp B vs0 vs1 f i0 i1 acc).outs n).2.1) := by
  intro f
  induction f with
  | zero =>
    intro i0 i1 acc n hn
    simp [m2InnerF, m2InnerSF, debufferList, hn]
  | succ f ih =>
    intro i0 i1 acc n hn
    by_cases h : i0 < vs0.length ∧ i1 < vs1.length
    case neg =>
      simp [m2InnerF, m2InnerSF, h, debufferList, hn]
    case pos =>
      by_cases hB2 : acc.length + 1 ≥ B
      case neg =>
        simp only [m2InnerF, m2InnerSF, dif_pos h, if_neg hB2]
        split_ifs
        · have hih := ih (i0 + 1) i1 (acc ++ [vs0.get ⟨i0, h.1⟩]) n hn
          simpa using hih
        · have hih := ih i0 (i1 + 1) (acc ++ [vs1.get ⟨i1, h.2⟩]) n hn
          simpa using hih
        · have hih := ih (i0 + 1) (i1 + 1)
            (acc ++ [vs0.get ⟨i0, h.1⟩, vs1.get ⟨i1, h.2⟩]) n hn
          simpa using hih
      case pos =>
        simp only [m2InnerF, m2InnerSF, dif_pos h, if_pos hB2]
        simp only [List.singleton_append]
        rcases hy : debufferBatch acc n with ⟨e, n2, c⟩
        cases c
        case false =>
          rw [debufferList_cons_false _ _ _ _ _ hy]
          simp
        case true =>
          rw [debufferList_cons_true _ _ _ _ _ hy]
          have hn2 : 1 ≤ n2 := by
            have heq := (debufferBatch_eq acc n hn).symm.trans hy
            simp only [Prod.mk.injEq] at heq
            obtain ⟨hq1, hq2, hq3⟩ := heq
            have hlt : acc.length < n := by simpa using hq3
            omega
          dsimp only
          split_ifs
          · obtain ⟨e1, e2, e3, e4⟩ := ih (i0 + 1) i1 ([] ++ [vs0.get ⟨i0, h.1⟩]) n2 hn2
            simp only [List.nil_append, List.get_eq_getElem] at e1 e2 e3 e4
            refine ⟨by simp [e1], by simp [e2], by simp [e3], ?_⟩
            intro hcont
            obtain ⟨f1, f2, f3, f4⟩ := e4 (by simpa using hcont)
            exact ⟨by simp [f1], by simp [f2], by simp [f3], by simpa using f4⟩
          · obtain ⟨e1, e2, e3, e4⟩ := ih i0 (i1 + 1) ([] ++ [vs1.get ⟨i1, h.2⟩]) n2 hn2
            simp only [List.nil_append, List.get_eq_getElem] at e1 e2 e3 e4
            refine ⟨by simp [e1], by simp [e2], by simp [e3], ?_⟩
            intro hcont
            obtain ⟨f1, f2, f3, f4⟩ := e4 (by simpa using hcont)
            exact ⟨by simp [f1], by simp [f2], by simp [f3], by simpa using f4⟩
          · obtain ⟨e1, e2, e3, e4⟩ := ih (i0 + 1) (i1 + 1)
              ([] ++ [vs0.get ⟨i0, h.1⟩, vs1.get ⟨i1, h.2⟩]) n2 hn2
            simp only [List.nil_append, List.get_eq_getElem] at e1 e2 e3 e4
            refine ⟨by simp [e1], by simp [e2], by simp [e3], ?_⟩
            intro hcont
            obtain ⟨f1, f2, f3, f4⟩ := e4 (by simpa using hcont)
            exact ⟨by simp [f1], by simp [f2], by simp [f3], by simpa using f4⟩

/-- Wrapper form of `m2InnerSF_lock`: the budgeted inner loop emits what the
budgeted debuffer extracts from the full run's yielded batches, and while
the consumer has not stopped the two runs are in identical states. -/
theorem m2InnerS_lock (cmp : V → V → Int) (B : Nat) (vs0 vs1 : List V)
    (i0 i1 : Nat) (acc : List V) (n : Nat) (hn : 1 ≤ n) :
    (m2InnerS cmp B vs0 vs1 i0 i1 acc n).emitted =
      (debufferList (m2Inner cmp B vs0 vs1 i0 i1 acc).outs n).1 ∧
    (m2InnerS cmp B vs0 vs1 i0 i1 acc n).n =
      (debufferList (m2Inner cmp B vs0 vs1 i0 i1 acc).outs n).2.1 ∧
    (m2InnerS cmp B vs0 vs1 i0 i1 acc n).stopped =
      (!(debufferList (m2Inner cmp B vs0 vs1 i0 i1 acc).outs n).2.2) ∧
    ((debufferList (m2Inner cmp B vs0 vs1 i0 i1 acc).outs n).2.2 = true →
      (m2InnerS cmp B vs0 vs1 i0 i1 acc n).i0 = (m2Inner cmp B vs0 vs1 i0 i1 acc).i0 ∧
      (m2InnerS cmp B vs0 vs1 i0 i1 acc n).i1 = (m2Inner cmp B vs0 vs1 i0 i1 acc).i1 ∧
      (m2InnerS cmp B vs0 vs1 i0 i1 acc n).acc = (m2Inner cmp B vs0 vs1 i0 i1 acc).acc ∧
      1 ≤ (debufferList (m2Inner cmp B vs0 vs1 i0 i1 acc).outs n).2.1) :=
  m2InnerSF_lock cmp B vs0 vs1 (vs0.length + vs1.length) i0 i1 acc n hn

theorem debufferList_append_stop (xs ys : List (List V)) (n : Nat)
    (h : (debufferList xs n).2.2 = false) :
    debufferList (xs ++ ys) n = debufferList xs n := by
  rw [debufferList_append]
  simp [h]

theorem debufferList_append_cont (xs ys : List (List V)) (n : Nat)
    (h : (debufferList xs n).2.2 = true) :
    debufferList (xs ++ ys) n =
      ((debufferList xs n).1 ++ (debufferList ys (debufferList xs n).2.1).1,
        (debufferList ys (debufferList xs n).2.1).2) := by
  rw [debufferList_append]
  simp [h]

theorem m2OuterF_outs_prefix (cmp : V → V → Int) (B : Nat) (f : Nat)
    (v0s : List V) (ok0 : Bool) (r0 : List (List V))
    (v1s : List V) (ok1 : Bool) (r1 : List (List V)) (acc : List V)
    (h : (ok0 && ok1) = true) :
    ∃ X, (m2OuterF cmp B (f + 1) v0s ok0 r0 v1s ok1 r1 acc).outs =
      (m2Inner cmp B v0s v1s 0 0 acc).outs ++ X := by
  simp only [m2OuterF, if_pos h]
  split_ifs <;> rcases r0 with _ | ⟨b0, t0⟩ <;> rcases r1 with _ | ⟨b1, t1⟩ <;>
    first
      | exact ⟨_, rfl⟩
      | exact ⟨[], by simp⟩

theorem m2OuterSF_lock (cmp : V → V → Int) (B : Nat) :
    ∀ (f : Nat) (v0s : List V) (ok0 : Bool) (r0 : List (List V))
      (v1s : List V) (ok1 : Bool) (r1 : List (List V)) (acc : List V) (n : Nat),
      1 ≤ n →
      (m2OuterSF cmp B f v0s ok0 r0 v1s ok1 r1 acc n).emitted =
        (debufferList (m2OuterF cmp B f v0s ok0 r0 v1s ok1 r1 acc).outs n).1 ∧
      (m2OuterSF cmp B f v0s ok0 r0 v1s ok1 r1 acc n).n =
        (debufferList (m2OuterF cmp B f v0s ok0 r0 v1s ok1 r1 acc).outs n).2.1 ∧
      (m2OuterSF cmp B f v0s ok0 r0 v1s ok1 r1 acc n).stopped =
        (!(debufferList (m2OuterF cmp B f v0s ok0 r0 v1s ok1 r1 acc).outs n).2.2) ∧
      (m2OuterF cmp B f v0s ok0 r0 v1s ok1 r1 acc).rest0.length ≤
        (m2OuterSF cmp B f v0s ok0 r0 v1s ok1 r1 acc n).rest0.length ∧
      (m2OuterF cmp B f v0s ok0 r0 v1s ok1 r1 acc).rest1.length ≤
        (m2OuterSF cmp B f v0s ok0 r0 v1s ok1 r1 acc n).rest1.length ∧
      ((debufferList (m2OuterF cmp B f v0s ok0 r0 v1s ok1 r1 acc).outs n).2.2 = true →
        (m2OuterSF cmp B f v0s ok0 r0 v1s ok1 r1 acc n).values0 =
          (m2OuterF cmp B f v0s ok0 r0 v1s ok1 r1 acc).values0 ∧
        (m2OuterSF cmp B f v0s ok0 r0 v1s ok1 r1 acc n).ok0 =
          (m2OuterF cmp B f v0s ok0 r0 v1s ok1 r1 acc).ok0 ∧
        (m2OuterSF cmp B f v0s ok0 r0 v1s ok1 r1 acc n).rest0 =
          (m2OuterF cmp B f v0s ok0 r0 v1s ok1 r1 acc).rest0 ∧
        (m2OuterSF cmp B f v0s ok0 r0 v1s ok1 r1 acc n).values1 =
          (m2OuterF cmp B f v0s ok0 r0 v1s ok1 r1 acc).values1 ∧
        (m2OuterSF cmp B f v0s ok0 r0 v1s ok1 r1 acc n).ok1 =
          (m2OuterF cmp B f v0s ok0 r0 v1s ok1 r1 acc).ok1 ∧
        (m2OuterSF cmp B f v0s ok0 r0 v1s ok1 r1 acc n).rest1 =
          (m2OuterF cmp B f v0s ok0 r0 v1s ok1 r1 acc).rest1 ∧
        (m2OuterSF cmp B f v0s ok0 r0 v1s ok1 r1 acc n).acc =
          (m2OuterF cmp B f v0s ok0 r0 v1s ok1 r1 acc).acc ∧
        1 ≤ (debufferList (m2OuterF cmp B f v0s ok0 r0 v1s ok1 r1 acc).outs n).2.1) := by
  intro f
  induction f with
  | zero =>
    intro v0s ok0 r0 v1s ok1 r1 acc n hn
    simp [m2OuterF, m2OuterSF, debufferList, hn]
  | succ f ih =>
    intro v0s ok0 r0 v1s ok1 r1 acc n hn
    by_cases h : (ok0 && ok1) = true
    case neg =>
      simp [m2OuterF, m2OuterSF, h, debufferList, hn]
    case pos =>
      obtain ⟨l1, l2, l3, l4⟩ := m2InnerS_lock cmp B v0s v1s 0 0 acc n hn
      by_cases hst : (m2InnerS cmp B v0s v1s 0 0 acc n).stopped = true
      case pos =>
        have hDf : (debufferList (m2Inner cmp B v0s v1s 0 0 acc).outs n).2.2 = false := by
          rw [hst] at l3
          cases hD : (debufferList (m2Inner cmp B v0s v1s 0 0 acc).outs n).2.2
          · rfl
          · rw [hD] at l3; simp at l3
        obtain ⟨X, hX⟩ := m2OuterF_outs_prefix cmp B f v0s ok0 r0 v1s ok1 r1 acc h
        have hmono := m2OuterF_rest_mono cmp B (f + 1) v0s ok0 r0 v1s ok1 r1 acc
        rw [hX, debufferList_append_stop _ _ _ hDf]
        simp only [m2OuterSF, if_pos h, if_pos hst]
        refine ⟨l1, l2, by rw [hDf]; simpa using hst, by simpa using hmono.1,
          by simpa using hmono.2, ?_⟩
        intro hc
        rw [hDf] at hc
        simp at hc
      case neg =>
        have hst2 : (m2InnerS cmp B v0s v1s 0 0 acc n).stopped = false := by
          simpa using hst
        have hDt : (debufferList (m2Inner cmp B v0s v1s 0 0 acc).outs n).2.2 = true := by
          rw [hst2] at l3
          cases hD : (debufferList (m2Inner cmp B v0s v1s 0 0 acc).outs n).2.2
          · rw [hD] at l3; simp at l3
          · rfl
        obtain ⟨s1, s2, s3, hn2⟩ := l4 hDt
        simp only [m2OuterSF, m2OuterF, if_pos h, hst2, Bool.false_eq_true, if_false]
        rw [s1, s2, s3, l2]
        by_cases h0 : (m2Inner cmp B v0s v1s 0 0 acc).i0 = v0s.length
        · by_cases h1 : (m2Inner cmp B v0s v1s 0 0 acc).i1 = v1s.length
          · simp only [if_pos h0, if_pos h1]
            rcases r0 with _ | ⟨b0, t0⟩ <;> rcases r1 with _ | ⟨b1, t1⟩
            · dsimp only
              refine ⟨l1, by trivial, by rw [hDt]; simpa using hst2, by simp, by simp, ?_⟩
              intro hc
              exact ⟨by trivial, by trivial, by trivial, by trivial, by trivial, by trivial, by trivial, hn2⟩
            · dsimp only
              refine ⟨l1, by trivial, by rw [hDt]; simpa using hst2, by simp, by simp, ?_⟩
              intro hc
              exact ⟨by trivial, by trivial, by trivial, by trivial, by trivial, by trivial, by trivial, hn2⟩
            · dsimp only
              refine ⟨l1, by trivial, by rw [hDt]; simpa using hst2, by simp, by simp, ?_⟩
              intro hc
              exact ⟨by trivial, by trivial, by trivial, by trivial, by trivial, by trivial, by trivial, hn2⟩
            · dsimp only
              obtain ⟨g1, g2, g3, g4, g5, g6⟩ := ih b0 true t0 b1 true t1
                (m2Inner cmp B v0s v1s 0 0 acc).acc
                (debufferList (m2Inner cmp B v0s v1s 0 0 acc).outs n).2.1 hn2
              rw [debufferList_append_cont _ _ _ hDt]
              refine ⟨by simp [l1, g1], by simp [g2], by simp [g3],
                by simpa using g4, by simpa using g5, ?_⟩
              intro hc
              obtain ⟨k1, k2, k3, k4, k5, k6, k7, k8⟩ := g6 (by simpa using hc)
              exact ⟨by simp [k1], by simp [k2], by simp [k3], by simp [k4],
                by simp [k5], by simp [k6], by simp [k7], by simpa using k8⟩
          · simp only [if_pos h0, if_neg h1]
            rcases r0 with _ | ⟨b0, t0⟩
            · dsimp only
              refine ⟨l1, by trivial, by rw [hDt]; simpa using hst2, by simp, by simp, ?_⟩
              intro hc
              exact ⟨by trivial, by trivial, by trivial, by trivial, by trivial, by trivial, by trivial, hn2⟩
            · dsimp only
              obtain ⟨g1, g2, g3, g4, g5, g6⟩ := ih b0 true t0 v1s ok1 r1
                (m2Inner cmp B v0s v1s 0 0 acc).acc
                (debufferList (m2Inner cmp B v0s v1s 0 0 acc).outs n).2.1 hn2
              rw [debufferList_append_cont _ _ _ hDt]
              refine ⟨by simp [l1, g1], by simp [g2], by simp [g3],
                by simpa using g4, by simpa using g5, ?_⟩
              intro hc
              obtain ⟨k1, k2, k3, k4, k5, k6, k7, k8⟩ := g6 (by simpa using hc)
              exact ⟨by simp [k1], by simp [k2], by simp [k3], by simp [k4],
                by simp [k5], by simp [k6], by simp [k7], by simpa using k8⟩
        · by_cases h1 : (m2Inner cmp B v0s v1s 0 0 acc).i1 = v1s.length
          · simp only [if_neg h0, if_pos h1]
            rcases r1 with _ | ⟨b1, t1⟩
            · dsimp only
              refine ⟨l1, by trivial, by rw [hDt]; simpa using hst2, by simp, by simp, ?_⟩
              intro hc
              exact ⟨by trivial, by trivial, by trivial, by trivial, by trivial, by trivial, by trivial, hn2⟩
            · dsimp only
              obtain ⟨g1, g2, g3, g4, g5, g6⟩ := ih v0s ok0 r0 b1 true t1
                (m2Inner cmp B v0s v1s 0 0 acc).acc
                (debufferList (m2Inner cmp B v0s v1s 0 0 acc).outs n).2.1 hn2
              rw [debufferList_append_cont _ _ _ hDt]
              refine ⟨by simp [l1, g1], by simp [g2], by simp [g3],
                by simpa using g4, by simpa using g5, ?_⟩
              intro hc
              obtain ⟨k1, k2, k3, k4, k5, k6, k7, k8⟩ := g6 (by simpa using hc)
              exact ⟨by simp [k1], by simp [k2], by simp [k3], by simp [k4],
                by simp [k5], by simp [k6], by simp [k7], by simpa using k8⟩
          · simp only [if_neg h0, if_neg h1]
            refine ⟨l1, by trivial, by rw [hDt]; simpa using hst2, by simp, by simp, ?_⟩
            intro hc
            exact ⟨by trivial, by trivial, by trivial, by trivial, by trivial, by trivial, by trivial, hn2⟩

/-- Wrapper form of `m2OuterSF_lock`. -/
theorem m2OuterS_lock (cmp : V → V → Int) (B : Nat)
    (v0s : List V) (ok0 : Bool) (r0 : List (List V))
    (v1s : List V) (ok1 : Bool) (r1 : List (List V)) (acc : List V)
    (n : Nat) (hn : 1 ≤ n) :
    (m2OuterS cmp B v0s ok0 r0 v1s ok1 r1 acc n).emitted =
      (debufferList (m2Outer cmp B v0s ok0 r0 v1s ok1 r1 acc).outs n).1 ∧
    (m2OuterS cmp B v0s ok0 r0 v1s ok1 r1 acc n).n =
      (debufferList (m2Outer cmp B v0s ok0 r0 v1s ok1 r1 acc).outs n).2.1 ∧
    (m2OuterS cmp B v0s ok0 r0 v1s ok1 r1 acc n).stopped =
      (!(debufferList (m2Outer cmp B v0s ok0 r0 v1s ok1 r1 acc).outs n).2.2) ∧
    (m2Outer cmp B v0s ok0 r0 v1s ok1 r1 acc).rest0.length ≤
      (m2OuterS cmp B v0s ok0 r0 v1s ok1 r1 acc n).rest0.length ∧
    (m2Outer cmp B v0s ok0 r0 v1s ok1 r1 acc).rest1.length ≤
      (m2OuterS cmp B v0s ok0 r0 v1s ok1 r1 acc n).rest1.length ∧
    ((debufferList (m2Outer cmp B v0s ok0 r0 v1s ok1 r1 acc).outs n).2.2 = true →
      (m2OuterS cmp B v0s ok0 r0 v1s ok1 r1 acc n).values0 =
        (m2Outer cmp B v0s ok0 r0 v1s ok1 r1 acc).values0 ∧
      (m2OuterS cmp B v0s ok0 r0 v1s ok1 r1 acc n).ok0 =
        (m2Outer cmp B v0s ok0 r0 v1s ok1 r1 acc).ok0 ∧
      (m2OuterS cmp B v0s ok0 r0 v1s ok1 r1 acc n).rest0 =
        (m2Outer cmp B v0s ok0 r0 v1s ok1 r1 acc).rest0 ∧
      (m2OuterS cmp B v0s ok0 r0 v1s ok1 r1 acc n).values1 =
        (m2Outer cmp B v0s ok0 r0 v1s ok1 r1 acc).values1 ∧
      (m2OuterS cmp B v0s ok0 r0 v1s ok1 r1 acc n).ok1 =
        (m2Outer cmp B v0s ok0 r0 v1s ok1 r1 acc).ok1 ∧
      (m2OuterS cmp B v0s ok0 r0 v1s ok1 r1 acc n).rest1 =
        (m2Outer cmp B v0s ok0 r0 v1s ok1 r1 acc).rest1 ∧
      (m2OuterS cmp B v0s ok0 r0 v1s ok1 r1 acc n).acc =
        (m2Outer cmp B v0s ok0 r0 v1s ok1 r1 acc).acc ∧
      1 ≤ (debufferList (m2Outer cmp B v0s ok0 r0 v1s ok1 r1 acc).outs n).2.1) :=
  m2OuterSF_lock cmp B (r0.length + r1.length + 1) v0s ok0 r0 v1s ok1 r1 acc n hn

/-- The budgeted debuffer on a single batch is the batch callback itself. -/
theorem debufferList_singleton (b : List V) (n : Nat) :
    debufferList [b] n = debufferBatch b n := by
  rcases hy : debufferBatch b n with ⟨e, n2, c⟩
  cases c
  · rw [debufferList_cons_false _ _ _ _ _ hy]
  · rw [debufferList_cons_true _ _ _ _ _ hy]
    simp [debufferList]

/-- The budgeted pipeline equals the budget-`m` debuffer run over the batch
list produced by the full pairwise engine. -/
theorem merge2Stop_eq (cmp : V → V → Int) (B : Nat) (s0 s1 : List (List V))
    (m : Nat) (hm : 1 ≤ m) :
    merge2Stop cmp B s0 s1 m =
      ((debufferList (merge2 cmp B s0 s1) m).1,
       (debufferList (merge2 cmp B s0 s1) m).2.1,
       !(debufferList (merge2 cmp B s0 s1) m).2.2) := by
  obtain ⟨L1, L2, L3, L4, L5, L6⟩ := m2OuterS_lock cmp B (pull s0).1 (pull s0).2.1
    (pull s0).2.2 (pull s1).1 (pull s1).2.1 (pull s1).2.2 [] m hm
  have hpost : (m2Outer cmp B (pull s0).1 (pull s0).2.1 (pull s0).2.2
      (pull s1).1 (pull s1).2.1 (pull s1).2.2 []).ok0 = false ∨
      (m2Outer cmp B (pull s0).1 (pull s0).2.1 (pull s0).2.2
      (pull s1).1 (pull s1).2.1 (pull s1).2.2 []).ok1 = false :=
    m2OuterF_post cmp B ((pull s0).2.2.length + (pull s1).2.2.length + 1)
      (pull s0).1 (pull s0).2.1 (pull s0).2.2 (pull s1).1 (pull s1).2.1
      (pull s1).2.2 [] (by omega)
  simp only [merge2Stop, merge2]
  by_cases hst : (m2OuterS cmp B (pull s0).1 (pull s0).2.1 (pull s0).2.2
      (pull s1).1 (pull s1).2.1 (pull s1).2.2 [] m).stopped = true
  case pos =>
    have hDf : (debufferList (m2Outer cmp B (pull s0).1 (pull s0).2.1 (pull s0).2.2
        (pull s1).1 (pull s1).2.1 (pull s1).2.2 []).outs m).2.2 = false := by
      rw [hst] at L3
      cases hD : (debufferList (m2Outer cmp B (pull s0).1 (pull s0).2.1 (pull s0).2.2
          (pull s1).1 (pull s1).2.1 (pull s1).2.2 []).outs m).2.2
      · rfl
      · rw [hD] at L3; simp at L3
    rw [if_pos hst, List.append_assoc, List.append_assoc,
      debufferList_append_stop _ _ _ hDf]
    simp only [Prod.mk.injEq]
    exact ⟨L1, L2, by simp [hDf]⟩
  case neg =>
    have hst2 : (m2OuterS cmp B (pull s0).1 (pull s0).2.1 (pull s0).2.2
        (pull s1).1 (pull s1).2.1 (pull s1).2.2 [] m).stopped = false := by
      simpa using hst
    have hDt : (debufferList (m2Outer cmp B (pull s0).1 (pull s0).2.1 (pull s0).2.2
        (pull s1).1 (pull s1).2.1 (pull s1).2.2 []).outs m).2.2 = true := by
      rw [hst2] at L3
      cases hD : (debufferList (m2Outer cmp B (pull s0).1 (pull s0).2.1 (pull s0).2.2
          (pull s1).1 (pull s1).2.1 (pull s1).2.2 []).outs m).2.2
      · rw [hD] at L3; simp at L3
      · rfl
    obtain ⟨t1, t2, t3, t4, t5, t6, t7, hn2⟩ := L6 hDt
    rw [hst2]
    simp only [Bool.false_eq_true, if_false]
    rw [t1, t2, t3, t4, t5, t6, t7, L2]
    conv_rhs => rw [List.append_assoc, List.append_assoc]
    rw [debufferList_append_cont _ _ _ hDt]
    dsimp only
    have hy : (if 0 < (m2Outer cmp B (pull s0).1 (pull s0).2.1 (pull s0).2.2
          (pull s1).1 (pull s1).2.1 (pull s1).2.2 []).acc.length then
        debufferBatch (m2Outer cmp B (pull s0).1 (pull s0).2.1 (pull s0).2.2
          (pull s1).1 (pull s1).2.1 (pull s1).2.2 []).acc
          (debufferList (m2Outer cmp B (pull s0).1 (pull s0).2.1 (pull s0).2.2
            (pull s1).1 (pull s1).2.1 (pull s1).2.2 []).outs m).2.1
      else ([], (debufferList (m2Outer cmp B (pull s0).1 (pull s0).2.1 (pull s0).2.2
            (pull s1).1 (pull s1).2.1 (pull s1).2.2 []).outs m).2.1, true)) =
      debufferList (if 0 < (m2Outer cmp B (pull s0).1 (pull s0).2.1 (pull s0).2.2
          (pull s1).1 (pull s1).2.1 (pull s1).2.2 []).acc.length then
        [(m2Outer cmp B (pull s0).1 (pull s0).2.1 (pull s0).2.2
          (pull s1).1 (pull s1).2.1 (pull s1).2.2 []).acc] else [])
        (debufferList (m2Outer cmp B (pull s0).1 (pull s0).2.1 (pull s0).2.2
            (pull s1).1 (pull s1).2.1 (pull s1).2.2 []).outs m).2.1 := by
      split_ifs
      · exact (debufferList_singleton _ _).symm
      · simp [debufferList]
    rw [hy]
    by_cases hb : (debufferList (if 0 < (m2Outer cmp B (pull s0).1 (pull s0).2.1
        (pull s0).2.2 (pull s1).1 (pull s1).2.1 (pull s1).2.2 []).acc.length then
        [(m2Outer cmp B (pull s0).1 (pull s0).2.1 (pull s0).2.2 (pull s1).1
          (pull s1).2.1 (pull s1).2.2 []).acc] else [])
        (debufferList (m2Outer cmp B (pull s0).1 (pull s0).2.1 (pull s0).2.2
          (pull s1).1 (pull s1).2.1 (pull s1).2.2 []).outs m).2.1).2.2 = true
    case pos =>
      rw [if_pos hb, flushStop_eq, flushStop_eq,
        debufferList_append_cont _ _ _ hb]
      rcases hpost with hok0 | hok1
      · have hF0 : flushList (m2Outer cmp B (pull s0).1 (pull s0).2.1 (pull s0).2.2
            (pull s1).1 (pull s1).2.1 (pull s1).2.2 []).values0
            (m2Outer cmp B (pull s0).1 (pull s0).2.1 (pull s0).2.2
            (pull s1).1 (pull s1).2.1 (pull s1).2.2 []).ok0
            (m2Outer cmp B (pull s0).1 (pull s0).2.1 (pull s0).2.2
            (pull s1).1 (pull s1).2.1 (pull s1).2.2 []).rest0 = [] := by
          simp [flushList, hok0]
        rw [hF0]
        simp [L1, debufferList, List.append_assoc]
      · have hF1 : flushList (m2Outer cmp B (pull s0).1 (pull s0).2.1 (pull s0).2.2
            (pull s1).1 (pull s1).2.1 (pull s1).2.2 []).values1
            (m2Outer cmp B (pull s0).1 (pull s0).2.1 (pull s0).2.2
            (pull s1).1 (pull s1).2.1 (pull s1).2.2 []).ok1
            (m2Outer cmp B (pull s0).1 (pull s0).2.1 (pull s0).2.2
            (pull s1).1 (pull s1).2.1 (pull s1).2.2 []).rest1 = [] := by
          simp [flushList, hok1]
        rw [hF1]
        simp [L1, debufferList, List.append_assoc]
    case neg =>
      have hb2 : (debufferList (if 0 < (m2Outer cmp B (pull s0).1 (pull s0).2.1
          (pull s0).2.2 (pull s1).1 (pull s1).2.1 (pull s1).2.2 []).acc.length then
          [(m2Outer cmp B (pull s0).1 (pull s0).2.1 (pull s0).2.2 (pull s1).1
            (pull s1).2.1 (pull s1).2.2 []).acc] else [])
          (debufferList (m2Outer cmp B (pull s0).1 (pull s0).2.1 (pull s0).2.2
            (pull s1).1 (pull s1).2.1 (pull s1).2.2 []).outs m).2.1).2.2 = false := by
        simpa using hb
      rw [hb2, debufferList_append_stop _ _ _ hb2]
      simp [L1, hb2]

/-- C8: if the consumer stops after receiving the first `m` values (its
yield callback returns `false` on the `m`-th value), the composed pipeline
`debuffer(merge2(...))` delivers exactly the first `m` values of the full
merged output and no more; the stop is propagated (the run reports the
consumer's stop), and the engine driven by the stopping consumer pulls no
more batches from either source than the full run does (its unpulled
remainders are at least as long). -/
theorem c8_early_stop_exact (cmp : V → V → Int) (B : Nat)
    (s0 s1 : List (List V)) (m : Nat) (hm : 1 ≤ m) :
    (merge2Stop cmp B s0 s1 m).1 = (pipeline cmp B s0 s1).take m ∧
    (m ≤ (pipeline cmp B s0 s1).length →
      (merge2Stop cmp B s0 s1 m).1.length = m ∧
      (merge2Stop cmp B s0 s1 m).2.2 = true) ∧
    (m2Outer cmp B (pull s0).1 (pull s0).2.1 (pull s0).2.2 (pull s1).1
      (pull s1).2.1 (pull s1).2.2 []).rest0.length ≤
      (m2OuterS cmp B (pull s0).1 (pull s0).2.1 (pull s0).2.2 (pull s1).1
      (pull s1).2.1 (pull s1).2.2 [] m).rest0.length ∧
    (m2Outer cmp B (pull s0).1 (pull s0).2.1 (pull s0).2.2 (pull s1).1
      (pull s1).2.1 (pull s1).2.2 []).rest1.length ≤
      (m2OuterS cmp B (pull s0).1 (pull s0).2.1 (pull s0).2.2 (pull s1).1
      (pull s1).2.1 (pull s1).2.2 [] m).rest1.length := by
  have hs := merge2Stop_eq cmp B s0 s1 m hm
  have hd := debufferList_eq (merge2 cmp B s0 s1) m hm
  have hlock := m2OuterS_lock cmp B (pull s0).1 (pull s0).2.1 (pull s0).2.2
    (pull s1).1 (pull s1).2.1 (pull s1).2.2 [] m hm
  refine ⟨?_, ?_, hlock.2.2.2.1, hlock.2.2.2.2.1⟩
  · rw [hs, hd]
    rfl
  · intro hlen
    have hlen2 : m ≤ (merge2 cmp B s0 s1).flatten.length := by
      simpa only [pipeline, debuffer] using hlen
    constructor
    · rw [hs, hd]
      dsimp only
      rw [List.length_take]
      omega
    · rw [hs, hd]
      dsimp only
      rw [decide_eq_false (Nat.not_lt.mpr hlen2)]
      rfl

/-- Witness for `c8_early_stop_exact` at a concrete input: stopping after 5
values of the 13-value merged stream delivers exactly its first 5 values
and reports the stop. -/
theorem c8_early_stop_exact_witness :
    (merge2Stop cmpInt 2 [[1, 3, 5], [7, 9]] [[2, 3, 4], [6, 8]] 5).1 =
      (pipeline cmpInt 2 [[1, 3, 5], [7, 9]] [[2, 3, 4], [6, 8]]).take 5 ∧
    (merge2Stop cmpInt 2 [[1, 3, 5], [7, 9]] [[2, 3, 4], [6, 8]] 5).1.length = 5 ∧
    (merge2Stop cmpInt 2 [[1, 3, 5], [7, 9]] [[2, 3, 4], [6, 8]] 5).2.2 = true := by
  have h := c8_early_stop_exact cmpInt 2 [[1, 3, 5], [7, 9]] [[2, 3, 4], [6, 8]] 5
    (by decide)
  exact ⟨h.1, (h.2.1 (by decide)).1, (h.2.1 (by decide)).2⟩

end Kway
